import Mathlib

set_option maxRecDepth 100000

/-!
Verification of src/extract_slides.py: a script that extracts slide fragments
from an exported HTML document and reassembles them into a print-ready page.
The program text is embedded shallowly over List Char: Python str values become
List Char, str.find becomes strFind (None encoded as Option), str.split becomes
splitOnSub, the balanced-div while-loop becomes scanAux (structural recursion on
a fuel argument that over-approximates the loop's iteration count: each
iteration advances the cursor by at least 4, so length + 1 iterations are never
exhausted), and the two regex findall calls become direct scanners with the
same leftmost, non-overlapping match semantics.
-/

/-- Whitespace test used by Python's str.strip (restricted to the ASCII and
Latin-1 whitespace code points; the inputs considered below contain no
exotic Unicode space characters, where this agrees with Python). -/
def pyIsSpace (c : Char) : Bool :=
  c = ' ' || c = '\t' || c = '\n' || c = '\x0d' || c = '\x0b' || c = '\x0c' ||
  c = '\x1c' || c = '\x1d' || c = '\x1e' || c = '\x1f' || c = '\x85' || c = '\xa0'

/-- Python str.strip(): drop whitespace from both ends. -/
def pyStrip (s : List Char) : List Char :=
  ((s.dropWhile pyIsSpace).reverse.dropWhile pyIsSpace).reverse

/-- Python slicing s[a:b] for 0 ≤ a ≤ b. -/
def sliceStr (s : List Char) (a b : Nat) : List Char :=
  (s.drop a).take (b - a)

/-- Helper for strFind: try positions pos, pos+1, ... (fuel-many). -/
def strFindAux (sub s : List Char) : Nat → Nat → Option Nat
  | _, 0 => none
  | pos, fuel+1 =>
    if sub.isPrefixOf (s.drop pos) then some pos
    else strFindAux sub s (pos+1) fuel

/-- Python s.find(sub, start) for a non-empty sub: the least index c ≥ start
at which sub occurs in s, with -1 (no occurrence) encoded as none. -/
def strFind (sub s : List Char) (start : Nat) : Option Nat :=
  strFindAux sub s start (s.length + 1 - start)

/-- Number of occurrence positions of sub in s (equal to Python s.count(sub)
for the non-self-overlapping needles <div and </div> used below). -/
def countOcc (sub s : List Char) : Nat :=
  ((List.range s.length).filter (fun j => sub.isPrefixOf (s.drop j))).length

/-- Helper for splitOnSub; fuel bounds the number of separator hits. -/
def splitOnSubAux (sep : List Char) : Nat → List Char → List (List Char)
  | 0, s => [s]
  | fuel+1, s =>
    match strFind sep s 0 with
    | none => [s]
    | some i => sliceStr s 0 i :: splitOnSubAux sep fuel (s.drop (i + sep.length))

/-- Python s.split(sep) for a non-empty separator: split at every occurrence,
left to right, keeping empty pieces. -/
def splitOnSub (sep s : List Char) : List (List Char) :=
  splitOnSubAux sep (s.length + 1) s

/-- Helper for unescape; fuel bounds the number of consumed characters. -/
def unescapeAux : Nat → List Char → List Char
  | 0, s => s
  | _+1, [] => []
  | fuel+1, c :: rest =>
    if c = '&' then
      if ("amp;".toList).isPrefixOf rest then '&' :: unescapeAux fuel (rest.drop 4)
      else if ("lt;".toList).isPrefixOf rest then '<' :: unescapeAux fuel (rest.drop 3)
      else if ("gt;".toList).isPrefixOf rest then '>' :: unescapeAux fuel (rest.drop 3)
      else if ("quot;".toList).isPrefixOf rest then '"' :: unescapeAux fuel (rest.drop 5)
      else if ("#39;".toList).isPrefixOf rest then '\'' :: unescapeAux fuel (rest.drop 4)
      else c :: unescapeAux fuel rest
    else c :: unescapeAux fuel rest

/-- Models Python html.unescape restricted to the five predefined XML entity
references; every concrete input appearing in the theorems below contains no
ampersand at all, and on such inputs this model agrees with the library
(both act as the identity). The general theorems below do not depend on any
property of this function. -/
def unescape (s : List Char) : List Char := unescapeAux s.length s

/-! ## Constants of the program (src/extract_slides.py) -/

/-- The section delimiter (line 40 of the source). -/
def bodyDelim : List Char := "<body>".toList

/-- The marker tested with a containment check (line 45). -/
def markerSC : List Char := "slide-container".toList

/-- The opening-tag marker located by find (line 52); 27 characters. -/
def containerMarker : List Char := "<div class=\"slide-container".toList

/-- The generic opening-tag needle of the scan loop (line 65). -/
def openTagLit : List Char := "<div".toList

/-- The closing-tag needle of the scan loop (line 66). -/
def closeTagLit : List Char := "</div>".toList

/-! ## Style deduplication (lines 17-36) -/

/-- The literal head of the font-face regex @font-face\x7b (11 characters). -/
def fontFaceLit : List Char := "@font-face\x7b".toList

/-- Scanner for re.findall of the pattern @font-face\x7b[^\x7d]+\x7d: at each
candidate occurrence of the literal head, greedy [^\x7d]+ must reach the first
closing brace and be non-empty; on success the match is emitted and scanning
resumes at the match end, on an empty body the engine moves one position
forward, and if either the head or a later closing brace is absent no further
match exists. -/
def fontFacesAux (s : List Char) : Nat → Nat → List (List Char)
  | _, 0 => []
  | pos, fuel+1 =>
    match strFind fontFaceLit s pos with
    | none => []
    | some i =>
      match strFind ("\x7d".toList) s (i + 11) with
      | none => []
      | some b =>
        if i + 11 < b then sliceStr s i (b + 1) :: fontFacesAux s (b + 1) fuel
        else fontFacesAux s (i + 1) fuel

/-- font_faces = re.findall(r'@font-face\x7b[^\x7d]+\x7d', content) (line 20). -/
def fontFaces (content : List Char) : List (List Char) :=
  fontFacesAux content 0 (content.length + 1)

/-- Scanner for re.findall(r'<style[^>]*>(.*?)</style>', content, re.DOTALL):
a match starts at an occurrence of the literal <style, [^>]* runs exactly to
the first following '>', and the lazy group captures up to the first
following </style>; scanning resumes after that closing tag. If the leftmost
candidate lacks a '>' or a '</style>' ahead of it, no later candidate can
supply one either, so the scan ends. -/
def styleMatchesAux (s : List Char) : Nat → Nat → List (List Char)
  | _, 0 => []
  | pos, fuel+1 =>
    match strFind ("<style".toList) s pos with
    | none => []
    | some i =>
      match strFind (">".toList) s (i + 6) with
      | none => []
      | some g =>
        match strFind ("</style>".toList) s (g + 1) with
        | none => []
        | some h => sliceStr s (g + 1) h :: styleMatchesAux s (h + 8) fuel

/-- style_matches = re.findall(style_pattern, content, re.DOTALL) (line 25). -/
def styleMatches (content : List Char) : List (List Char) :=
  styleMatchesAux content 0 (content.length + 1)

/-- One iteration of the deduplication loop (lines 30-34): the pair carries
(seen_styles, unique_styles); the Python set is modelled by a list queried
only through membership, which is equality-based exactly like the set. -/
def dedupStep (acc : List (List Char) × List (List Char)) (style : List Char) :
    List (List Char) × List (List Char) :=
  if style ∉ acc.1 ∧ 100 < style.length then (style :: acc.1, acc.2 ++ [style]) else acc

/-- The deduplication loop over style_matches (lines 28-34). -/
def unique_styles (ms : List (List Char)) : List (List Char) :=
  (ms.foldl dedupStep ([], [])).2

/-- unique_styles computed from the whole document. -/
def uniqueStylesOf (content : List Char) : List (List Char) :=
  unique_styles (styleMatches content)

/-- Structural restatement of the foldl deduplication loop, carrying the seen
set explicitly. -/
def dedupRec (seen : List (List Char)) : List (List Char) → List (List Char)
  | [] => []
  | st :: rest =>
    if st ∉ seen ∧ 100 < st.length then st :: dedupRec (st :: seen) rest
    else dedupRec seen rest

/-! ## The balanced-container scan (lines 59-84) -/

/-- The while-loop of lines 63-84, char for char: at each step take the next
occurrences of <div and </div> from the cursor; stop with failure when no
closing tag remains; count an opening tag that precedes the next closing tag
and skip 4 characters; otherwise the closing tag either terminates the scan
(counter at zero, end recorded past the 6 closing characters) or cancels one
counted opening. The cursor strictly grows by at least 4 per iteration, so
the fuel passed by findContainerEnd is never exhausted. -/
def scanAux (s : List Char) : Nat → Nat → Nat → Option Nat
  | 0, _, _ => none
  | fuel+1, count, pos =>
    if pos < s.length then
      match strFind closeTagLit s pos with
      | none => none
      | some c =>
        match strFind openTagLit s pos with
        | some o =>
          if o < c then scanAux s fuel (count + 1) (o + 4)
          else if count = 0 then some (c + 6)
          else scanAux s fuel (count - 1) (c + 6)
        | none =>
          if count = 0 then some (c + 6)
          else scanAux s fuel (count - 1) (c + 6)
    else none

/-- div_count = 0; pos = container_start; the loop of lines 59-84. -/
def findContainerEnd (s : List Char) (containerStart : Nat) : Option Nat :=
  scanAux s (s.length + 1) 0 containerStart

/-- The body of the per-section loop (lines 44-89): skip sections without the
marker, unescape, locate the container marker, run the balanced scan, and on
success emit the stripped slice; a section for which container_end stays -1
(modelled by none) or does not exceed container_start contributes nothing. -/
def extractSection (sec : List Char) : Option (List Char) :=
  if (strFind markerSC sec 0).isSome then
    match strFind containerMarker (unescape sec) 0 with
    | none => none
    | some cs =>
      match findContainerEnd (unescape sec) cs with
      | none => none
      | some ce =>
        if cs < ce then some (pyStrip (sliceStr (unescape sec) cs ce)) else none
  else none

/-- body_splits[1:] (lines 40-43): split on the delimiter, drop the preamble. -/
def sectionsOf (content : List Char) : List (List Char) :=
  (splitOnSub bodyDelim content).drop 1

/-- The slides list built by the loop of lines 43-89: each section contributes
its extracted fragment, in order, or nothing. -/
def extract_slides (content : List Char) : List (List Char) :=
  (sectionsOf content).filterMap extractSection

/-! ## Output assembly (lines 91-185) and the entry point (lines 187-196) -/

/-- The stdout line of line 91: f"Found \x7blen(slides)\x7d slides". -/
def foundMessage (content : List Char) : List Char :=
  "Found ".toList ++ (Nat.repr (extract_slides content).length).toList ++ " slides".toList

/-- The fixed shell text preceding the font-face interpolation (lines 94-103). -/
def shellA : List Char :=
  ("<!DOCTYPE html>\n<html lang=\"uk\">\n<head>\n    <meta charset=\"UTF-8\">\n" ++
   "    <meta name=\"viewport\" content=\"width=1280, initial-scale=1.0\">\n" ++
   "    <title>–ê–∫–∞–¥–µ–º—ñ—á–Ω–∏–π –ø–ª–∞–≥—ñ–∞—Ç - –ï–∫—Å–ø–æ—Ä—Ç —Å–ª–∞–π–¥—ñ–≤</title>\n" ++
   "    \n    <style>\n        /* Font faces */\n        ").toList

/-- The fixed shell text between the two interpolations (lines 103-106). -/
def shellB : List Char :=
  "\n        \n        /* All extracted styles */\n        ".toList

/-- The fixed shell text after the styles interpolation: the print CSS, the
closing head, and the print button (lines 106-172). -/
def shellC : List Char :=
  ("\n        \n        /* Print styles */\n        @page \x7b\n" ++
   "            size: 1280px 720px landscape;\n            margin: 0;\n        \x7d\n" ++
   "        \n        body \x7b\n            margin: 0;\n            padding: 0;\n" ++
   "            background: #000;\n            -webkit-print-color-adjust: exact !important;\n" ++
   "            print-color-adjust: exact !important;\n            color-adjust: exact !important;\n" ++
   "        \x7d\n        \n        .slide \x7b\n            width: 1280px;\n" ++
   "            height: 720px;\n            page-break-after: always;\n" ++
   "            break-after: page;\n            page-break-inside: avoid;\n" ++
   "            break-inside: avoid;\n            position: relative;\n" ++
   "            overflow: hidden;\n        \x7d\n        \n" ++
   "        .slide:last-child \x7b\n            page-break-after: auto;\n        \x7d\n" ++
   "        \n        @media print \x7b\n            .print-btn \x7b \n" ++
   "                display: none !important; \n            \x7d\n            body \x7b \n" ++
   "                -webkit-print-color-adjust: exact !important;\n" ++
   "                print-color-adjust: exact !important;\n" ++
   "                color-adjust: exact !important;\n            \x7d\n        \x7d\n" ++
   "        \n        .print-btn \x7b\n            position: fixed;\n            top: 20px;\n" ++
   "            right: 20px;\n            padding: 15px 30px;\n            background: #4CAF50;\n" ++
   "            color: white;\n            border: none;\n            border-radius: 8px;\n" ++
   "            font-size: 18px;\n            cursor: pointer;\n            z-index: 9999;\n" ++
   "            box-shadow: 0 4px 15px rgba(0,0,0,0.3);\n        \x7d\n        \n" ++
   "        .print-btn:hover \x7b\n            background: #45a049;\n        \x7d\n" ++
   "    </style>\n</head>\n<body>\n" ++
   "    <button onclick=\"window.print()\" class=\"print-btn\">üñ®Ô∏è –ü–µ—á–∞—Ç—å –≤ PDF</button>\n" ++
   "    \n").toList

/-- The trailing text appended at line 178. -/
def shellEnd : List Char := "</body>\n</html>".toList

/-- One iteration of the slide-appending loop (lines 175-176). -/
def wrapSlide (frag : List Char) : List Char :=
  "    <div class=\"slide\">\n".toList ++ frag ++ "\n    </div>\n".toList

/-- The assembled output string (lines 94-179): the shell with the font-face
rules and unique styles joined by newlines, followed by the wrapped slides and
the closing tags. -/
def outputHtml (content : List Char) : List Char :=
  shellA ++ List.intercalate ['\n'] (fontFaces content) ++
  shellB ++ List.intercalate ['\n'] (uniqueStylesOf content) ++
  shellC ++ ((extract_slides content).map wrapSlide).flatten ++ shellEnd

/-- The hardcoded input path of line 188 (copied byte for byte). -/
def inputPathLit : List Char := "Genspark (03.12.2025 07Ôºö41Ôºö35).html".toList

/-- The hardcoded output path of line 189. -/
def outputPathLit : List Char := "slides-export-plagiat.html".toList

/-- The error line of line 192: f"Error: \x7binput_file\x7d not found". -/
def errMessage : List Char :=
  "Error: ".toList ++ inputPathLit ++ " not found".toList

/-- The stdout line of line 185. -/
def createdMessage (content : List Char) : List Char :=
  "Created ".toList ++ outputPathLit ++ " with ".toList ++
  (Nat.repr (extract_slides content).length).toList ++ " slides".toList

/-- Observable outcome of one run of the __main__ block: the process exit
status, the content written to the output file (none when nothing is
written), and the stdout lines, in order. -/
structure RunResult where
  exitCode : Nat
  written : Option (List Char)
  stdoutLines : List (List Char)

/-- The __main__ block (lines 187-196) with the file system abstracted to
whether the input file exists plus its text: when the input is absent the
program prints the error naming the path and exits with status 1 before any
output is attempted; otherwise it runs extract_slides and writes the
assembled document. -/
def runMain (inputExists : Bool) (content : List Char) : RunResult :=
  if inputExists then
    { exitCode := 0
      written := some (outputHtml content)
      stdoutLines := [foundMessage content, createdMessage content, "Done!".toList] }
  else
    { exitCode := 1, written := none, stdoutLines := [errMessage] }

/-! ## Concrete inputs used by the claim theorems -/

/-- A section holding one balanced slide-container element and nothing else. -/
def c1section : List Char := "<div class=\"slide-container\">X</div>".toList

/-- A document whose single section has a balanced container followed by one
stray closing tag. -/
def c2doc : List Char := "<body><div class=\"slide-container\">X</div>Y</div>".toList

/-- The fragment the program extracts from c2doc. -/
def c2frag : List Char := "<div class=\"slide-container\">X</div>Y</div>".toList

/-- Two body-delimited sections, each with one slide-container div holding a
nested unrelated div, each followed by its balanced close. -/
def c3doc : List Char :=
  ("head<body><div class=\"slide-container\">A<div>B</div>C</div>" ++
   "<body><div class=\"slide-container\">D<div>E</div>F</div>").toList

/-- A section whose container opens but never closes. -/
def c4bad : List Char := "<div class=\"slide-container\">X".toList

/-- A section from which the program does extract a fragment. -/
def c4good : List Char := "<div class=\"slide-container\">X</div>Y</div>".toList

/-- A document whose sections are c4bad followed by c4good. -/
def c4doc : List Char :=
  ("<body><div class=\"slide-container\">X" ++
   "<body><div class=\"slide-container\">X</div>Y</div>").toList

/-- A document in which the body delimiter never occurs. -/
def c5content : List Char := "no delimiter here".toList

/-- A section without the slide-container marker. -/
def c5sec : List Char := "<p>plain</p>".toList

/-- A document with the same short style block text twice. -/
def c6doc : List Char := "<style>a</style><style>a</style>".toList

/-- A style text longer than the 100-character threshold. -/
def c6wText : List Char := List.replicate 101 'a'

/-- A document containing that long style text twice. -/
def c6wdoc : List Char :=
  "<style>".toList ++ c6wText ++ "</style><style>".toList ++ c6wText ++ "</style>".toList

/-- A document with one unique but short style block. -/
def c7doc : List Char := "<style>tiny</style>".toList

/-- A document from which one fragment is extracted. -/
def c10doc : List Char := "<body><div class=\"slide-container\">Z</div>W</div>".toList

/-- The fragment the program extracts from c10doc. -/
def c10frag : List Char := "<div class=\"slide-container\">Z</div>W</div>".toList

/-! ## Helper lemmas about the string primitives -/

theorem isPrefixOf_ex {sub l : List Char} (h : sub.isPrefixOf l = true) :
    ∃ t, l = sub ++ t := by
  induction sub generalizing l with
  | nil => exact ⟨l, rfl⟩
  | cons a as ih =>
    cases l with
    | nil => simp [List.isPrefixOf] at h
    | cons b bs =>
      simp only [List.isPrefixOf, Bool.and_eq_true, beq_iff_eq] at h
      obtain ⟨rfl, h2⟩ := h
      obtain ⟨t, rfl⟩ := ih h2
      exact ⟨t, rfl⟩

theorem isPrefixOf_append_self (l t : List Char) : l.isPrefixOf (l ++ t) = true := by
  induction l with
  | nil => cases t <;> rfl
  | cons a as ih => simp [List.isPrefixOf, ih]

theorem isPrefixOf_nil_false {sub : List Char} (h : sub ≠ []) :
    sub.isPrefixOf ([] : List Char) = false := by
  cases sub with
  | nil => exact absurd rfl h
  | cons a as => rfl

theorem strFindAux_sound {sub s : List Char} :
    ∀ fuel pos c, strFindAux sub s pos fuel = some c →
      pos ≤ c ∧ sub.isPrefixOf (s.drop c) = true ∧
      ∀ j, pos ≤ j → j < c → sub.isPrefixOf (s.drop j) = false := by
  intro fuel
  induction fuel with
  | zero => intro pos c h; simp [strFindAux] at h
  | succ fuel ih =>
    intro pos c h
    by_cases hp : sub.isPrefixOf (s.drop pos) = true
    · rw [strFindAux, if_pos hp] at h
      cases h
      exact ⟨Nat.le_refl _, hp, fun j h1 h2 => absurd (Nat.lt_of_le_of_lt h1 h2) (Nat.lt_irrefl _)⟩
    · rw [strFindAux, if_neg hp] at h
      obtain ⟨h1, h2, h3⟩ := ih (pos + 1) c h
      refine ⟨by omega, h2, ?_⟩
      intro j hj1 hj2
      rcases Nat.eq_or_lt_of_le hj1 with rfl | hj
      · exact Bool.eq_false_iff.mpr hp
      · exact h3 j hj hj2

theorem strFind_sound {sub s : List Char} {start c : Nat} (h : strFind sub s start = some c) :
    start ≤ c ∧ sub.isPrefixOf (s.drop c) = true ∧
    ∀ j, start ≤ j → j < c → sub.isPrefixOf (s.drop j) = false :=
  strFindAux_sound _ _ _ h

theorem strFindAux_none_of {sub s : List Char}
    (h : ∀ j, sub.isPrefixOf (s.drop j) = false) :
    ∀ fuel pos, strFindAux sub s pos fuel = none := by
  intro fuel
  induction fuel with
  | zero => intro pos; rfl
  | succ fuel ih => intro pos; rw [strFindAux, h pos]; exact ih (pos + 1)

theorem strFindAux_none {sub s : List Char} :
    ∀ fuel pos, strFindAux sub s pos fuel = none →
      ∀ j, pos ≤ j → j < pos + fuel → sub.isPrefixOf (s.drop j) = false := by
  intro fuel
  induction fuel with
  | zero => intro pos _ j h1 h2; omega
  | succ fuel ih =>
    intro pos h j h1 h2
    by_cases hp : sub.isPrefixOf (s.drop pos) = true
    · rw [strFindAux, if_pos hp] at h; cases h
    · rcases Nat.eq_or_lt_of_le h1 with rfl | hj
      · exact Bool.eq_false_iff.mpr hp
      · rw [strFindAux, if_neg hp] at h
        exact ih (pos + 1) h j hj (by omega)

theorem strFind_none_all {sub s : List Char} (hne : sub ≠ [])
    (h : strFind sub s 0 = none) : ∀ j, sub.isPrefixOf (s.drop j) = false := by
  intro j
  by_cases hj : j < s.length + 1
  · exact strFindAux_none _ _ h j (Nat.zero_le _) (by simpa using hj)
  · rw [List.drop_eq_nil_of_le (by omega)]
    exact isPrefixOf_nil_false hne

theorem strFind_none_elsewhere {sub s : List Char} (hne : sub ≠ [])
    (h : strFind sub s 0 = none) (start : Nat) : strFind sub s start = none :=
  strFindAux_none_of (strFind_none_all hne h) _ _

/-! ## Helper lemmas about the balanced scan -/

theorem scanAux_sound {s : List Char} :
    ∀ fuel count pos e, scanAux s fuel count pos = some e →
      ∃ c, pos ≤ c ∧ closeTagLit.isPrefixOf (s.drop c) = true ∧ e = c + 6 := by
  intro fuel
  induction fuel with
  | zero => intro count pos e h; simp [scanAux] at h
  | succ fuel ih =>
    intro count pos e h
    rw [scanAux] at h
    by_cases hlen : pos < s.length
    · rw [if_pos hlen] at h
      cases hc : strFind closeTagLit s pos with
      | none => simp only [hc] at h; cases h
      | some c =>
        simp only [hc] at h
        obtain ⟨hc1, hc2, -⟩ := strFind_sound hc
        cases ho : strFind openTagLit s pos with
        | none =>
          simp only [ho] at h
          by_cases h0 : count = 0
          · rw [if_pos h0] at h
            cases h
            exact ⟨c, hc1, hc2, rfl⟩
          · rw [if_neg h0] at h
            obtain ⟨c', g1, g2, g3⟩ := ih _ _ _ h
            exact ⟨c', by omega, g2, g3⟩
        | some o =>
          simp only [ho] at h
          obtain ⟨ho1, -, -⟩ := strFind_sound ho
          by_cases hoc : o < c
          · rw [if_pos hoc] at h
            obtain ⟨c', g1, g2, g3⟩ := ih _ _ _ h
            exact ⟨c', by omega, g2, g3⟩
          · rw [if_neg hoc] at h
            by_cases h0 : count = 0
            · rw [if_pos h0] at h
              cases h
              exact ⟨c, hc1, hc2, rfl⟩
            · rw [if_neg h0] at h
              obtain ⟨c', g1, g2, g3⟩ := ih _ _ _ h
              exact ⟨c', by omega, g2, g3⟩
    · rw [if_neg hlen] at h; cases h

/-! ## Helper lemmas about extractSection -/

theorem extractSection_none_of_no_close {sec : List Char}
    (h : strFind closeTagLit (unescape sec) 0 = none) : extractSection sec = none := by
  rw [extractSection]
  by_cases hm : (strFind markerSC sec 0).isSome = true
  · rw [if_pos hm]
    cases hcm : strFind containerMarker (unescape sec) 0 with
    | none => rfl
    | some cs =>
      simp only [hcm]
      have hnone : findContainerEnd (unescape sec) cs = none := by
        rw [findContainerEnd, scanAux]
        by_cases hlen : cs < (unescape sec).length
        · rw [if_pos hlen, strFind_none_elsewhere (by decide) h cs]
        · rw [if_neg hlen]
      simp only [hnone]
  · rw [if_neg hm]

theorem extractSection_shape {sec frag : List Char} (h : extractSection sec = some frag) :
    ∃ cs c,
      containerMarker.isPrefixOf ((unescape sec).drop cs) = true ∧
      closeTagLit.isPrefixOf ((unescape sec).drop c) = true ∧ cs ≤ c ∧
      frag = pyStrip (sliceStr (unescape sec) cs (c + 6)) := by
  rw [extractSection] at h
  by_cases hm : (strFind markerSC sec 0).isSome = true
  · rw [if_pos hm] at h
    cases hcm : strFind containerMarker (unescape sec) 0 with
    | none => simp only [hcm] at h; cases h
    | some cs =>
      simp only [hcm] at h
      cases hce : findContainerEnd (unescape sec) cs with
      | none => simp only [hce] at h; cases h
      | some ce =>
        simp only [hce] at h
        obtain ⟨c, g1, g2, g3⟩ := scanAux_sound _ _ _ _ hce
        obtain ⟨-, m2, -⟩ := strFind_sound hcm
        by_cases hlt : cs < ce
        · rw [if_pos hlt] at h
          cases h
          exact ⟨cs, c, m2, g2, g1, by rw [g3]⟩
        · rw [if_neg hlt] at h; cases h
  · rw [if_neg hm] at h; cases h

/-- A closing tag cannot occur earlier than 27 characters past an occurrence
of the 27-character container marker: the marker contains no < beyond its
first character, and its second character is d, not /. -/
theorem close_far {u : List Char} {cs c : Nat}
    (hm : containerMarker.isPrefixOf (u.drop cs) = true)
    (hc : closeTagLit.isPrefixOf (u.drop c) = true)
    (hle : cs ≤ c) : cs + 27 ≤ c := by
  obtain ⟨t1, ht1⟩ := isPrefixOf_ex hm
  obtain ⟨t2, ht2⟩ := isPrefixOf_ex hc
  by_contra hcon
  have e1 : u[c]? = some '<' := by
    have h0 : (u.drop c)[0]? = some '<' := by rw [ht2]; rfl
    rw [List.getElem?_drop] at h0
    simpa using h0
  have e2 : u[c + 1]? = some '/' := by
    have h0 : (u.drop c)[1]? = some '/' := by rw [ht2]; rfl
    rw [List.getElem?_drop] at h0
    exact h0
  have e3 : ∀ k, k < 27 → u[cs + k]? = containerMarker[k]? := by
    intro k hk27
    have h1 : (u.drop cs)[k]? = u[cs + k]? := List.getElem?_drop u cs k
    rw [ht1, List.getElem?_append,
      if_pos (show k < containerMarker.length by simp [containerMarker]; omega)] at h1
    exact h1.symm
  have hk0 : c - cs = 0 := by
    have h4 := e3 (c - cs) (by omega)
    rw [(by omega : cs + (c - cs) = c), e1] at h4
    have key : ∀ k, k < 27 → containerMarker[k]? = some '<' → k = 0 := by decide
    exact key _ (by omega) h4.symm
  have h5 := e3 1 (by omega)
  rw [(by omega : cs + 1 = c + 1), e2] at h5
  have h6 : containerMarker[1]? = some 'd' := by decide
  rw [h6] at h5
  exact absurd h5 (by decide)

/-- The slice from the marker through a far-enough closing tag decomposes as
marker ++ middle ++ closing tag. -/
theorem slice_decomp {u : List Char} {cs c : Nat}
    (hm : containerMarker.isPrefixOf (u.drop cs) = true)
    (hc : closeTagLit.isPrefixOf (u.drop c) = true)
    (hfar : cs + 27 ≤ c) :
    ∃ mid, sliceStr u cs (c + 6) = containerMarker ++ mid ++ closeTagLit := by
  obtain ⟨t1, ht1⟩ := isPrefixOf_ex hm
  obtain ⟨t2, ht2⟩ := isPrefixOf_ex hc
  have hcu : c + 6 ≤ u.length := by
    have h1 : (u.drop c).length = u.length - c := List.length_drop c u
    rw [ht2] at h1
    simp only [List.length_append] at h1
    have h2 : closeTagLit.length = 6 := by decide
    omega
  have hA : u.drop cs = sliceStr u cs c ++ u.drop c := by
    rw [sliceStr]
    have h1 : (u.drop cs).drop (c - cs) = u.drop c := by
      rw [List.drop_drop, (by omega : cs + (c - cs) = c)]
    rw [← h1, List.take_append_drop]
  have hAlen : (sliceStr u cs c).length = c - cs := by
    rw [sliceStr, List.length_take, List.length_drop]
    omega
  refine ⟨(t1.take (c - cs - 27)).drop 0, ?_⟩
  have hslice : sliceStr u cs (c + 6) = sliceStr u cs c ++ closeTagLit := by
    rw [sliceStr, hA, List.take_append_eq_append_take, hAlen,
      (by omega : c + 6 - cs - (c - cs) = 6), ht2, List.take_append_eq_append_take,
      List.take_of_length_le (by decide : closeTagLit.length ≤ 6),
      (by decide : 6 - closeTagLit.length = 0), List.take_zero, List.append_nil,
      List.take_of_length_le (by omega : (sliceStr u cs c).length ≤ c + 6 - cs)]
  have h2 : containerMarker.length = 27 := by decide
  have hAm : sliceStr u cs c = containerMarker ++ t1.take (c - cs - 27) := by
    rw [sliceStr, ht1, List.take_append_eq_append_take, h2,
      List.take_of_length_le (by omega : containerMarker.length ≤ c - cs)]
  rw [hslice, hAm, List.drop_zero]

/-- strip is the identity on a list whose first and last characters are not
whitespace. -/
theorem pyStrip_of_ends {l : List Char} {a b : Char} {t1 t2 : List Char}
    (h1 : l = a :: t1) (ha : pyIsSpace a = false)
    (h2 : l = t2 ++ [b]) (hb : pyIsSpace b = false) : pyStrip l = l := by
  rw [pyStrip]
  have e1 : l.dropWhile pyIsSpace = l := by
    rw [h1, List.dropWhile_cons, ha]
    simp
  have e2 : l.reverse.dropWhile pyIsSpace = l.reverse := by
    rw [h2, List.reverse_append]
    simp only [List.reverse_cons, List.reverse_nil, List.nil_append, List.singleton_append,
      List.dropWhile_cons, hb]
    simp
  rw [e1, e2, List.reverse_reverse]

/-! ## Helper lemmas about the style deduplication -/

theorem foldl_dedupStep_eq : ∀ (l : List (List Char)) (seen out : List (List Char)),
    (l.foldl dedupStep (seen, out)).2 = out ++ dedupRec seen l := by
  intro l
  induction l with
  | nil => intro seen out; simp [dedupRec]
  | cons st rest ih =>
    intro seen out
    by_cases h : st ∉ seen ∧ 100 < st.length
    · simp only [List.foldl_cons, dedupStep, if_pos h, dedupRec, ih]
      simp
    · simp only [List.foldl_cons, dedupStep, if_neg h, dedupRec, ih]

theorem unique_styles_eq_dedupRec (l : List (List Char)) :
    unique_styles l = dedupRec [] l := by
  rw [unique_styles, foldl_dedupStep_eq, List.nil_append]

theorem mem_dedupRec {x : List Char} :
    ∀ (l seen : List (List Char)), x ∈ dedupRec seen l →
      x ∉ seen ∧ x ∈ l ∧ 100 < x.length := by
  intro l
  induction l with
  | nil => intro seen h; simp [dedupRec] at h
  | cons st rest ih =>
    intro seen h
    by_cases hc : st ∉ seen ∧ 100 < st.length
    · rw [dedupRec, if_pos hc] at h
      rcases List.mem_cons.mp h with rfl | h2
      · exact ⟨hc.1, List.mem_cons_self _ _, hc.2⟩
      · obtain ⟨g1, g2, g3⟩ := ih _ h2
        exact ⟨fun hx => g1 (List.mem_cons_of_mem _ hx), List.mem_cons_of_mem _ g2, g3⟩
    · rw [dedupRec, if_neg hc] at h
      obtain ⟨g1, g2, g3⟩ := ih _ h
      exact ⟨g1, List.mem_cons_of_mem _ g2, g3⟩

theorem count_dedupRec (x : List Char) :
    ∀ (l seen : List (List Char)), List.count x (dedupRec seen l) =
      if x ∉ seen ∧ x ∈ l ∧ 100 < x.length then 1 else 0 := by
  intro l
  induction l with
  | nil => intro seen; simp [dedupRec]
  | cons st rest ih =>
    intro seen
    rw [dedupRec]
    by_cases hc : st ∉ seen ∧ 100 < st.length
    · rw [if_pos hc, List.count_cons, ih]
      obtain ⟨hc1, hc2⟩ := hc
      by_cases hx : x = st
      · subst hx
        simp [hc1, hc2]
      · have hsx : st ≠ x := fun h => hx h.symm
        simp [hx, hsx]
    · rw [if_neg hc, ih]
      by_cases hx : x = st
      · subst hx
        push_neg at hc
        by_cases hs : x ∈ seen
        · simp [hs]
        · have hlen : ¬(100 < x.length) := by have := hc hs; omega
          simp [hs, hlen]
      · simp [hx]

theorem nodup_dedupRec : ∀ (l seen : List (List Char)), (dedupRec seen l).Nodup := by
  intro l
  induction l with
  | nil => intro seen; simp [dedupRec]
  | cons st rest ih =>
    intro seen
    rw [dedupRec]
    by_cases hc : st ∉ seen ∧ 100 < st.length
    · rw [if_pos hc, List.nodup_cons]
      refine ⟨fun hmem => ?_, ih _⟩
      exact (mem_dedupRec _ _ hmem).1 (List.mem_cons_self _ _)
    · rw [if_neg hc]; exact ih _

theorem dedupRec_eq_self : ∀ (l seen : List (List Char)), l.Nodup →
    (∀ y ∈ l, 100 < y.length ∧ y ∉ seen) → dedupRec seen l = l := by
  intro l
  induction l with
  | nil => intro seen _ _; rfl
  | cons st rest ih =>
    intro seen hnd hall
    obtain ⟨hst, hrest⟩ := List.nodup_cons.mp hnd
    obtain ⟨h1, h2⟩ := hall st (List.mem_cons_self _ _)
    rw [dedupRec, if_pos ⟨h2, h1⟩]
    congr 1
    refine ih (st :: seen) hrest ?_
    intro y hy
    obtain ⟨g1, g2⟩ := hall y (List.mem_cons_of_mem _ hy)
    refine ⟨g1, ?_⟩
    intro hmem
    rcases List.mem_cons.mp hmem with rfl | hmem2
    · exact hst hy
    · exact g2 hmem2

theorem unique_styles_idem (l : List (List Char)) :
    unique_styles (unique_styles l) = unique_styles l := by
  rw [unique_styles_eq_dedupRec, unique_styles_eq_dedupRec l]
  refine dedupRec_eq_self _ [] (nodup_dedupRec _ _) ?_
  intro y hy
  exact ⟨(mem_dedupRec _ _ hy).2.2, List.not_mem_nil y⟩

/-! ## The claims -/

/-- C1: the claim states that on a section whose marker begins a well-formed
balanced div element, the extractor returns the substring from the marker
through the element's own matching closing tag. The code instead starts the
scan at the marker itself (pos = container_start, line 60), so the first
occurrence of <div it finds is the container's own opening tag, which it
counts as a nested element; the container's true closing tag then only
decrements the counter, and on this balanced section the loop runs out of
closing tags and the section yields no fragment at all: the input has one
opening and one closing div tag and the marker at offset 0, yet extraction
returns none. -/
theorem claim1_balanced_container_not_extracted :
    countOcc openTagLit c1section = 1 ∧ countOcc closeTagLit c1section = 1 ∧
    strFind containerMarker c1section 0 = some 0 ∧
    findContainerEnd c1section 0 = none ∧
    extractSection c1section = none := by decide

/-- C2: the claim states that every extracted fragment has equally many <div
and </div> occurrences with depth never going negative and returning to zero
exactly at the end. The same off-by-one as in C1 makes the scan terminate only
at the closing tag after the matching one, so the fragment the program
returns on c2doc contains one opening and two closing tags: the depth scan
ends at -1, not 0. -/
theorem claim2_extracted_fragment_unbalanced :
    extract_slides c2doc = [c2frag] ∧
    countOcc openTagLit c2frag = 1 ∧ countOcc closeTagLit c2frag = 2 := by decide

/-- C3: the claim states that this two-section document yields two wrapped
fragments and the stdout line "Found 2 slides". Because each section's
balanced container is never matched (C1), the program extracts nothing and
prints "Found 0 slides". -/
theorem claim3_two_slide_example_extracts_nothing :
    extract_slides c3doc = [] ∧
    foundMessage c3doc = "Found 0 slides".toList ∧
    foundMessage c3doc ≠ "Found 2 slides".toList := by decide

/-- C4: a section whose container element is opened but whose closing tag
never occurs contributes zero fragments, and the slides of the whole document
are exactly those contributed by the sections before and after it: one
malformed section never prevents extraction from the remaining sections. -/
theorem claim4_unclosed_section_skipped (content bad : List Char)
    (pre post : List (List Char))
    (hsec : sectionsOf content = pre ++ bad :: post)
    (hnc : strFind closeTagLit (unescape bad) 0 = none) :
    extractSection bad = none ∧
    extract_slides content =
      pre.filterMap extractSection ++ post.filterMap extractSection := by
  have hb := extractSection_none_of_no_close hnc
  refine ⟨hb, ?_⟩
  rw [extract_slides, hsec, List.filterMap_append, List.filterMap_cons_none hb]

/-- C4 witness: on c4doc, whose first section never closes its container, the
bad section yields none and the slides are exactly those of the second
section. -/
theorem claim4_witness :
    extractSection c4bad = none ∧
    extract_slides c4doc =
      List.filterMap extractSection [] ++ List.filterMap extractSection [c4good] :=
  claim4_unclosed_section_skipped c4doc c4bad [] [c4good] (by decide) (by decide)

/-- C5: the splitter drops everything before the first delimiter and keeps
only marker-bearing sections; when the delimiter never occurs the section
list is empty and zero slides are produced, with no error, and a section
without the marker contributes nothing. -/
theorem claim5_splitter_edge_cases (content sec : List Char)
    (h1 : strFind bodyDelim content 0 = none)
    (h2 : strFind markerSC sec 0 = none) :
    sectionsOf content = [] ∧ extract_slides content = [] ∧
    extractSection sec = none := by
  have hs : sectionsOf content = [] := by
    rw [sectionsOf, splitOnSub, splitOnSubAux]
    simp only [h1]
    rfl
  refine ⟨hs, ?_, ?_⟩
  · rw [extract_slides, hs]; rfl
  · rw [extractSection, h2]; rfl

/-- C5 witness: a delimiter-free document yields no sections and no slides,
and a marker-free section yields nothing. -/
theorem claim5_witness :
    sectionsOf c5content = [] ∧ extract_slides c5content = [] ∧
    extractSection c5sec = none :=
  claim5_splitter_edge_cases c5content c5sec (by decide) (by decide)

/-- C6 counterexample: the claim states that a document containing the same
style block inner text twice has that text exactly once in the unique-style
output. On c6doc the text occurs twice among the style matches yet appears
zero times in the output, because its length does not exceed the threshold of
100 characters. -/
theorem claim6_counterexample :
    List.count "a".toList (styleMatches c6doc) = 2 ∧
    List.count "a".toList (uniqueStylesOf c6doc) ≠ 1 := by decide

/-- C6 (amended): for a document containing the same style block inner text
of length exceeding 100 at least twice, that text appears exactly once in the
unique-style output, and the deduplicator is idempotent (hence deterministic,
being a pure function of the match list, with blocks kept in first-seen
order). -/
theorem claim6_amended_dedup (content x : List Char)
    (h1 : 2 ≤ List.count x (styleMatches content)) (h2 : 100 < x.length) :
    List.count x (uniqueStylesOf content) = 1 ∧
    unique_styles (uniqueStylesOf content) = uniqueStylesOf content := by
  have hmem : x ∈ styleMatches content := by
    by_contra hx
    rw [List.count_eq_zero_of_not_mem hx] at h1
    omega
  constructor
  · rw [uniqueStylesOf, unique_styles_eq_dedupRec, count_dedupRec,
      if_pos ⟨List.not_mem_nil x, hmem, h2⟩]
  · exact unique_styles_idem _

/-- C6 witness: a 101-character style text occurring twice in c6wdoc appears
exactly once in the unique-style output, which deduplicates idempotently. -/
theorem claim6_witness :
    2 ≤ List.count c6wText (styleMatches c6wdoc) ∧ 100 < c6wText.length ∧
    List.count c6wText (uniqueStylesOf c6wdoc) = 1 ∧
    unique_styles (uniqueStylesOf c6wdoc) = uniqueStylesOf c6wdoc := by
  have h := claim6_amended_dedup c6wdoc c6wText (by decide) (by decide)
  exact ⟨by decide, by decide, h.1, h.2⟩

/-- C7: a style block whose inner text length does not exceed the threshold
of 100 characters never appears in the unique-style output, even when its
text is unique in the document. -/
theorem claim7_short_styles_excluded (content x : List Char) (h : x.length ≤ 100) :
    x ∉ uniqueStylesOf content := by
  intro hmem
  rw [uniqueStylesOf, unique_styles_eq_dedupRec] at hmem
  have := (mem_dedupRec _ _ hmem).2.2
  omega

/-- C7 witness: the unique four-character style text of c7doc is absent from
the unique-style output. -/
theorem claim7_witness :
    ("tiny".toList).length ≤ 100 ∧ "tiny".toList ∉ uniqueStylesOf c7doc :=
  ⟨by decide, claim7_short_styles_excluded c7doc _ (by decide)⟩

/-- C8: when the input file is absent the run exits with status 1, writes no
output, and its single stdout line names the missing path; when the input is
present the run always completes with status 0 and writes the assembled
document, so the missing input is the only aborting condition. -/
theorem claim8_missing_input_aborts (content : List Char) :
    (runMain false content).exitCode = 1 ∧
    (runMain false content).written = none ∧
    (runMain false content).stdoutLines = [errMessage] ∧
    (strFind inputPathLit errMessage 0).isSome = true ∧
    (runMain true content).exitCode = 0 ∧
    (runMain true content).written = some (outputHtml content) :=
  ⟨rfl, rfl, rfl, by decide, rfl, rfl⟩

/-- C9: the whole transformation is a deterministic function of the input
text alone: two runs over identical content produce identical assembled
documents, identical stdout, and identical run results. -/
theorem claim9_deterministic (content1 content2 : List Char) (h : content1 = content2) :
    outputHtml content1 = outputHtml content2 ∧
    foundMessage content1 = foundMessage content2 ∧
    runMain true content1 = runMain true content2 := by
  subst h
  exact ⟨rfl, rfl, rfl⟩

/-- C9 witness: instantiated at a one-character document. -/
theorem claim9_witness :
    outputHtml "x".toList = outputHtml "x".toList ∧
    foundMessage "x".toList = foundMessage "x".toList ∧
    runMain true "x".toList = runMain true "x".toList :=
  claim9_deterministic "x".toList "x".toList rfl

/-- C10: every fragment in the slides list begins with the exact literal
opening marker: the slice starts at an occurrence of the marker in the
unescaped section text and the final strip removes nothing from either end,
the fragment starting with < and ending with >. -/
theorem claim10_fragment_starts_with_marker (content frag : List Char)
    (h : frag ∈ extract_slides content) :
    containerMarker.isPrefixOf frag = true := by
  rw [extract_slides, List.mem_filterMap] at h
  obtain ⟨sec, -, hsec⟩ := h
  obtain ⟨cs, c, hm, hc, hle, hfrag⟩ := extractSection_shape hsec
  have hfar := close_far hm hc hle
  obtain ⟨mid, hslice⟩ := slice_decomp hm hc hfar
  have h1 : sliceStr (unescape sec) cs (c + 6) =
      '<' :: (("div class=\"slide-container".toList ++ mid) ++ closeTagLit) := by
    rw [hslice]; rfl
  have h2 : sliceStr (unescape sec) cs (c + 6) =
      ((containerMarker ++ mid) ++ "</div".toList) ++ ['>'] := by
    rw [hslice, List.append_assoc (containerMarker ++ mid) "</div".toList ['>']]
    rfl
  have hstrip := pyStrip_of_ends h1 (by decide) h2 (by decide)
  rw [hfrag, hstrip, hslice, List.append_assoc]
  exact isPrefixOf_append_self _ _

/-- C10 witness: the fragment extracted from c10doc starts with the marker. -/
theorem claim10_witness : containerMarker.isPrefixOf c10frag = true :=
  claim10_fragment_starts_with_marker c10doc c10frag (by decide)
